import Mathlib

/-!
Shallow embedding of `src/app.py` (a Flask product-catalogue storefront).

The persistent state (SQLite via SQLAlchemy) is modelled as explicit lists of
rows plus autoincrement counters; the per-session cart is a list of
`{id, qty}` entries exactly as stored in `session["cart"]`.  Each route
handler that the claims refer to is translated into a pure function from
(database state, cart) to (outcome, database state, cart); SQLAlchemy's
`rollback` corresponds to returning the pre-state unchanged, `commit` to
returning the accumulated new state.  `created_at` timestamps and template
rendering are omitted: no claim observes them.
-/

/-- Row of the `Product` table (`class Product`, src/app.py lines 38-44).
`price` and `stock` are Python ints (SQLAlchemy `Integer`), so they are
modelled as unbounded `Int`; nothing in the code constrains their sign. -/
structure Product where
  id : Nat
  name : String
  description : String
  price : Int
  stock : Int
  image : String
deriving DecidableEq, Repr

/-- One entry of the session cart: the dict `{"id": product_id, "qty": n}`
(src/app.py line 148/168).  `qty` starts at 1 and is only ever incremented,
hence `Nat`. -/
structure CartEntry where
  id : Nat
  qty : Nat
deriving DecidableEq, Repr

/-- The session cart `session["cart"]`: a list of entries. -/
abbrev Cart := List CartEntry

/-- Row of the `Order` table (`class Order`, src/app.py lines 46-54), minus
the wall-clock `created_at` column. -/
structure Order where
  id : Nat
  user_id : Nat
  status : String
  address : String
  phone : String
deriving DecidableEq, Repr

/-- Row of the `OrderItem` table (`class OrderItem`, src/app.py lines 56-64). -/
structure OrderItem where
  id : Nat
  order_id : Nat
  product_id : Nat
  quantity : Nat
  price_at_purchase : Int
deriving DecidableEq, Repr

/-- The whole relational store: the three tables the claims talk about plus
the autoincrement counters SQLite maintains for their primary keys.
(The `User` table only supplies `current_user.id`, passed as a plain `Nat`.) -/
structure DB where
  products : List Product
  orders : List Order
  order_items : List OrderItem
  next_product_id : Nat
  next_order_id : Nat
  next_item_id : Nat
deriving DecidableEq, Repr

/-- Primary-key lookup `Product.query.get(pid)` / `get_or_404(pid)`:
the first (in a well-formed store: only) row with that id. -/
def findProduct (db : DB) (pid : Nat) : Option Product :=
  db.products.find? (fun p => p.id == pid)

/-- Outcome of the `add_to_cart` route. -/
inductive AddOutcome where
  | notFound
  | outOfStock
  | ok
deriving DecidableEq, Repr

/-- The in-place cart update of `add_to_cart` (src/app.py lines 161-169):
walk the cart, bump `qty` of the first entry for this product and stop;
if none matches, append a fresh `{id, qty: 1}` entry at the end. -/
def incQty (pid : Nat) : Cart → Cart
  | [] => [⟨pid, 1⟩]
  | e :: rest =>
    if e.id = pid then ⟨e.id, e.qty + 1⟩ :: rest
    else e :: incQty pid rest

/-- Route `add_to_cart` (src/app.py lines 155-170): 404 when the product id
is unknown, "Out of stock!" when `product.stock <= 0`, otherwise update the
session cart.  The database is never written. -/
def add_to_cart (db : DB) (cart : Cart) (pid : Nat) : AddOutcome × DB × Cart :=
  match findProduct db pid with
  | none => (.notFound, db, cart)
  | some p =>
    if p.stock ≤ 0 then (.outOfStock, db, cart)
    else (.ok, db, incQty pid cart)

/-- One rendered line of the cart page: the dict
`{"product": p, "qty": ..., "line_total": ...}` (src/app.py line 183). -/
structure CartItemView where
  product : Product
  qty : Nat
  line_total : Int
deriving DecidableEq, Repr

/-- Route `view_cart` (src/app.py lines 172-184): fold over the session cart,
skipping entries whose product no longer exists (`if not p: continue`),
accumulating the rendered items and the running total. -/
def view_cart (db : DB) (cart : Cart) : List CartItemView × Int :=
  cart.foldl
    (fun acc e =>
      match findProduct db e.id with
      | none => acc
      | some p =>
        (acc.1 ++ [⟨p, e.qty, p.price * (e.qty : Int)⟩],
         acc.2 + p.price * (e.qty : Int)))
    ([], 0)

/-- Route `remove_from_cart` (src/app.py lines 186-192): pop the entry at
`index` when it is in range, otherwise leave the cart alone. -/
def remove_from_cart (cart : Cart) (index : Nat) : Cart :=
  if index < cart.length then cart.eraseIdx index else cart

/-- Outcome of the `checkout` POST route. -/
inductive CheckoutOutcome where
  | emptyCart
  | insufficientStock (productName : String)
  | ok (orderId : Nat)
deriving DecidableEq, Repr

/-- The update `p.stock -= qty` on the row found by primary key: replace the
stock of the first product with this id, leaving every other row untouched. -/
def setStock (pid : Nat) (s : Int) : List Product → List Product
  | [] => []
  | p :: rest =>
    if p.id = pid then { p with stock := s } :: rest
    else p :: setStock pid s rest

/-- The cart loop of `checkout` (src/app.py lines 253-264): for each entry,
re-read the product (skip it when deleted), abort with the offending
product's name when `p.stock < qty`, otherwise decrement the stock and
stage an `OrderItem` snapshotting quantity and current price.  Returns the
staged products table, order-items table and next item id on success. -/
def checkoutLoop (oid : Nat) :
    Cart → List Product → List OrderItem → Nat →
    Except String (List Product × List OrderItem × Nat)
  | [], ps, items, nid => .ok (ps, items, nid)
  | e :: rest, ps, items, nid =>
    match ps.find? (fun p => p.id == e.id) with
    | none => checkoutLoop oid rest ps items nid
    | some p =>
      if p.stock < (e.qty : Int) then .error p.name
      else
        checkoutLoop oid rest
          (setStock e.id (p.stock - (e.qty : Int)) ps)
          (items ++ [⟨nid, oid, p.id, e.qty, p.price⟩])
          (nid + 1)

/-- Route `checkout`, POST path (src/app.py lines 236-268), for the session
of user `uid`.  Empty cart: redirect away, nothing written.  Otherwise an
`Order` in status "Pending" is created and the cart loop is run inside the
unit of work; `db.session.rollback()` on a stock shortfall discards the
order, the staged items and every staged stock change, so the failure
branch returns the pre-state and the untouched cart.  On success the unit
of work is committed and `session["cart"] = []`. -/
def checkout (uid : Nat) (address phone : String) (db : DB) (cart : Cart) :
    CheckoutOutcome × DB × Cart :=
  if cart.isEmpty then (.emptyCart, db, cart)
  else
    match checkoutLoop db.next_order_id cart db.products db.order_items db.next_item_id with
    | .error pname => (.insufficientStock pname, db, cart)
    | .ok (products2, items2, nid2) =>
      (.ok db.next_order_id,
       { products := products2
         orders := db.orders ++ [⟨db.next_order_id, uid, "Pending", address, phone⟩]
         order_items := items2
         next_product_id := db.next_product_id
         next_order_id := db.next_order_id + 1
         next_item_id := nid2 },
       [])

/-- Route `admin_add_product` (src/app.py lines 297-310): insert a new row
with the submitted fields.  `int(request.form["stock"])` accepts any
integer, so `stock : Int` with no sign restriction. -/
def admin_add_product (db : DB) (name description : String) (price stock : Int)
    (image : String) : DB :=
  { db with
    products := db.products ++
      [⟨db.next_product_id, name, description, price, stock, image⟩]
    next_product_id := db.next_product_id + 1 }

/-- Field update on the row found by primary key: apply `f` to the first
product with this id. -/
def editFirst (pid : Nat) (f : Product → Product) : List Product → List Product
  | [] => []
  | p :: rest =>
    if p.id = pid then f p :: rest
    else p :: editFirst pid f rest

/-- Route `admin_edit_product` (src/app.py lines 312-324): 404 when the id is
unknown, otherwise overwrite every submitted field of that product row.
Again `int(...)` places no sign restriction on price or stock. -/
def admin_edit_product (db : DB) (pid : Nat) (name description : String)
    (price stock : Int) (image : String) : Option DB :=
  (findProduct db pid).map fun _ =>
    { db with
      products := editFirst pid
        (fun p => ⟨p.id, name, description, price, stock, image⟩) db.products }

/-- Row deletion by primary key: drop the first product with this id. -/
def removeFirst (pid : Nat) : List Product → List Product
  | [] => []
  | p :: rest => if p.id = pid then rest else p :: removeFirst pid rest

/-- Route `admin_delete_product` (src/app.py lines 326-332): 404 when the id
is unknown, otherwise delete that product row. -/
def admin_delete_product (db : DB) (pid : Nat) : Option DB :=
  (findProduct db pid).map fun _ =>
    { db with products := removeFirst pid db.products }

/-- Status overwrite on the order found by primary key. -/
def editOrderStatus (oid : Nat) (status : String) : List Order → List Order
  | [] => []
  | o :: rest =>
    if o.id = oid then { o with status := status } :: rest
    else o :: editOrderStatus oid status rest

/-- Route `admin_orders`, POST path (src/app.py lines 334-343): 404 when the
order id is unknown, otherwise overwrite its status with the submitted
string (no transition validation). -/
def admin_update_order_status (db : DB) (oid : Nat) (status : String) : Option DB :=
  (db.orders.find? (fun o => o.id == oid)).map fun _ =>
    { db with orders := editOrderStatus oid status db.orders }

/-- One user-or-admin operation of the program, with the request parameters
it carries; used to quantify over every state the program can reach. -/
inductive Op where
  | addToCart (pid : Nat)
  | removeFromCart (index : Nat)
  | checkoutOp (uid : Nat) (address phone : String)
  | adminAdd (name description : String) (price stock : Int) (image : String)
  | adminEdit (pid : Nat) (name description : String) (price stock : Int) (image : String)
  | adminDelete (pid : Nat)
  | adminStatus (oid : Nat) (status : String)
deriving DecidableEq, Repr

/-- Apply one operation to the (database, session cart) state, discarding the
response; a 404 (`Option.none`) leaves the state unchanged, exactly as
`get_or_404` aborts the request before any write. -/
def applyOp (s : DB × Cart) : Op → DB × Cart
  | .addToCart pid => (add_to_cart s.1 s.2 pid).2
  | .removeFromCart i => (s.1, remove_from_cart s.2 i)
  | .checkoutOp uid a ph => (checkout uid a ph s.1 s.2).2
  | .adminAdd n d pr st im => (admin_add_product s.1 n d pr st im, s.2)
  | .adminEdit pid n d pr st im => ((admin_edit_product s.1 pid n d pr st im).getD s.1, s.2)
  | .adminDelete pid => ((admin_delete_product s.1 pid).getD s.1, s.2)
  | .adminStatus oid st => ((admin_update_order_status s.1 oid st).getD s.1, s.2)

/-- Run a sequence of operations from a starting state. -/
def runOps (s : DB × Cart) (ops : List Op) : DB × Cart :=
  ops.foldl applyOp s

/-- Whether an operation's admin-supplied stock field (if any) is
non-negative; user operations carry no stock field and always pass. -/
def opStockOK : Op → Bool
  | .adminAdd _ _ _ st _ => decide (0 ≤ st)
  | .adminEdit _ _ _ _ st _ => decide (0 ≤ st)
  | _ => true

/-- Total quantity the cart records for a given product id (the sum of `qty`
over its entries; a deduplicated cart has at most one such entry). -/
def cartQty (cart : Cart) (pid : Nat) : Nat :=
  ((cart.filter (fun e => e.id == pid)).map (fun e => e.qty)).sum

/-- The items `view_cart` should render according to the listing contract:
one line per cart entry whose product still exists, joined with live
product data.  Stated from the spec's words, to be compared with the
`view_cart` fold. -/
def viewCartSpecItems (db : DB) (cart : Cart) : List CartItemView :=
  cart.filterMap fun e =>
    (findProduct db e.id).map fun p => ⟨p, e.qty, p.price * (e.qty : Int)⟩

/-! ### Sample states used by witnesses -/

/-- Scenario A store: one product, stock 1, price 2000 (spec §8). -/
def dbA : DB := ⟨[⟨1, "Headphones", "d", 2000, 1, "h.jpg"⟩], [], [], 2, 1, 1⟩

/-! ### Helper lemmas about the cart update -/

theorem cartQty_cons (i n q : Nat) (rest : Cart) :
    cartQty (⟨i, n⟩ :: rest) q = (if i = q then n else 0) + cartQty rest q := by
  by_cases h : i = q <;> simp [cartQty, List.filter_cons, h]

theorem cartQty_incQty_self (pid : Nat) (cart : Cart) :
    cartQty (incQty pid cart) pid = cartQty cart pid + 1 := by
  induction cart with
  | nil => simp [incQty, cartQty]
  | cons e rest ih =>
    obtain ⟨i, n⟩ := e
    by_cases he : i = pid
    · subst he
      simp [incQty, cartQty_cons]
      omega
    · simp [incQty, he, cartQty_cons, ih]

theorem cartQty_incQty_other (pid q : Nat) (cart : Cart) (h : q ≠ pid) :
    cartQty (incQty pid cart) q = cartQty cart q := by
  have hpq : pid ≠ q := fun hc => h hc.symm
  induction cart with
  | nil => simp [incQty, cartQty, hpq]
  | cons e rest ih =>
    obtain ⟨i, n⟩ := e
    by_cases he : i = pid
    · subst he
      simp [incQty, cartQty_cons, hpq, ih]
    · simp [incQty, he, cartQty_cons, ih]

theorem incQty_mem_id (pid : Nat) (cart : Cart) :
    ∀ f ∈ incQty pid cart, f.id = pid ∨ ∃ g ∈ cart, g.id = f.id := by
  induction cart with
  | nil => simp [incQty]
  | cons e rest ih =>
    intro f hf
    by_cases he : e.id = pid
    · simp only [incQty, if_pos he] at hf
      rcases List.mem_cons.mp hf with h | h
      · left; rw [h, he]
      · right; exact ⟨f, List.mem_cons_of_mem _ h, rfl⟩
    · simp only [incQty, if_neg he] at hf
      rcases List.mem_cons.mp hf with h | h
      · right; exact ⟨e, List.mem_cons_self _ _, by rw [h]⟩
      · rcases ih f h with h2 | ⟨g, hg, hgid⟩
        · left; exact h2
        · right; exact ⟨g, List.mem_cons_of_mem _ hg, hgid⟩

theorem incQty_pairwise (pid : Nat) (cart : Cart)
    (h : cart.Pairwise (fun x y => x.id ≠ y.id)) :
    (incQty pid cart).Pairwise (fun x y => x.id ≠ y.id) := by
  induction cart with
  | nil => simp [incQty]
  | cons e rest ih =>
    rw [List.pairwise_cons] at h
    obtain ⟨h1, h2⟩ := h
    by_cases he : e.id = pid
    · simp only [incQty, if_pos he, List.pairwise_cons]
      exact ⟨h1, h2⟩
    · simp only [incQty, if_neg he, List.pairwise_cons]
      refine ⟨?_, ih h2⟩
      intro f hf
      rcases incQty_mem_id pid rest f hf with hid | ⟨g, hg, hgid⟩
      · rw [hid]; exact he
      · rw [← hgid]; exact h1 g hg

theorem incQty_length_of_mem (pid : Nat) (cart : Cart) (h : ∃ e ∈ cart, e.id = pid) :
    (incQty pid cart).length = cart.length := by
  induction cart with
  | nil => simp at h
  | cons e rest ih =>
    by_cases he : e.id = pid
    · simp [incQty, if_pos he]
    · obtain ⟨f, hf, hfid⟩ := h
      rcases List.mem_cons.mp hf with rfl | hf2
      · exact absurd hfid he
      · simp only [incQty, if_neg he, List.length_cons, ih ⟨f, hf2, hfid⟩]

theorem add_to_cart_of_stock_pos (db : DB) (cart : Cart) (pid : Nat) (p : Product)
    (hp : findProduct db pid = some p) (hs : 0 < p.stock) :
    add_to_cart db cart pid = (.ok, db, incQty pid cart) := by
  have hne : ¬ p.stock ≤ 0 := by omega
  simp [add_to_cart, hp, hne]

/-! ### C4: empty cart checkout -/

/-- C4: for every empty cart, a checkout POST fails with EmptyCart and
creates no Order: the persisted orders, order items and every product's
stock (indeed the whole store) are returned unchanged. -/
theorem checkout_empty_cart (uid : Nat) (a ph : String) (db : DB) :
    checkout uid a ph db [] = (.emptyCart, db, []) ∧
    (checkout uid a ph db []).2.1.orders = db.orders ∧
    (checkout uid a ph db []).2.1.order_items = db.order_items ∧
    (checkout uid a ph db []).2.1.products = db.products :=
  ⟨rfl, rfl, rfl, rfl⟩

/-! ### C6: add-to-cart against a zero-stock product -/

/-- C6: for every existing product with current stock 0, `add_to_cart`
fails with OutOfStock and returns the database and the cart unchanged. -/
theorem add_to_cart_zero_stock (db : DB) (cart : Cart) (pid : Nat) (p : Product)
    (hp : findProduct db pid = some p) (hs : p.stock = 0) :
    add_to_cart db cart pid = (.outOfStock, db, cart) := by
  simp [add_to_cart, hp, hs]

/-- Witness for C6 at a concrete one-product store with stock 0 and a
non-empty cart. -/
theorem add_to_cart_zero_stock_witness :
    add_to_cart ⟨[⟨1, "x", "d", 5, 0, "i"⟩], [], [], 2, 1, 1⟩ [⟨1, 2⟩] 1 =
      (.outOfStock, ⟨[⟨1, "x", "d", 5, 0, "i"⟩], [], [], 2, 1, 1⟩, [⟨1, 2⟩]) :=
  add_to_cart_zero_stock _ _ _ ⟨1, "x", "d", 5, 0, "i"⟩ rfl rfl

/-! ### C10: add-to-cart checks stock only against zero -/

/-- C10: for every existing product with stock at least 1, `add_to_cart`
succeeds and increments that product's total cart quantity by exactly 1,
leaving every other product's cart quantity alone — whatever quantity is
already in the cart, since the stock check only compares against zero. -/
theorem add_to_cart_increments_qty (db : DB) (cart : Cart) (pid : Nat) (p : Product)
    (hp : findProduct db pid = some p) (hs : 1 ≤ p.stock) :
    add_to_cart db cart pid = (.ok, db, incQty pid cart) ∧
    cartQty (add_to_cart db cart pid).2.2 pid = cartQty cart pid + 1 ∧
    ∀ q : Nat, q ≠ pid → cartQty (add_to_cart db cart pid).2.2 q = cartQty cart q := by
  have h1 : add_to_cart db cart pid = (.ok, db, incQty pid cart) :=
    add_to_cart_of_stock_pos db cart pid p hp (by omega)
  refine ⟨h1, ?_, ?_⟩
  · rw [h1]; exact cartQty_incQty_self pid cart
  · intro q hq; rw [h1]; exact cartQty_incQty_other pid q cart hq

/-- Witness for C10: product 1 of `dbA` has stock 1, the cart already holds
quantity 100 of it, and the add still succeeds and makes it 101. -/
theorem add_to_cart_increments_qty_witness :
    add_to_cart dbA [⟨1, 100⟩] 1 = (.ok, dbA, incQty 1 [⟨1, 100⟩]) ∧
    cartQty (add_to_cart dbA [⟨1, 100⟩] 1).2.2 1 = cartQty [⟨1, 100⟩] 1 + 1 :=
  ⟨(add_to_cart_increments_qty dbA [⟨1, 100⟩] 1 ⟨1, "Headphones", "d", 2000, 1, "h.jpg"⟩
      rfl (by decide)).1,
   (add_to_cart_increments_qty dbA [⟨1, 100⟩] 1 ⟨1, "Headphones", "d", 2000, 1, "h.jpg"⟩
      rfl (by decide)).2.1⟩

/-! ### C5: at most one cart entry per product -/

/-- C5: `add_to_cart` on an in-stock product preserves the invariant that a
cart holds at most one entry per product id; when the product already has
an entry the cart length stays the same (the entry is bumped, not
duplicated); and adding the same product twice to an empty cart yields
exactly the single entry with quantity 2. -/
theorem cart_dedup (db : DB) (pid : Nat) (p : Product)
    (hp : findProduct db pid = some p) (hs : 0 < p.stock) :
    (∀ cart : Cart, cart.Pairwise (fun x y => x.id ≠ y.id) →
      ((add_to_cart db cart pid).2.2).Pairwise (fun x y => x.id ≠ y.id)) ∧
    (∀ cart : Cart, (∃ e ∈ cart, e.id = pid) →
      ((add_to_cart db cart pid).2.2).length = cart.length) ∧
    (add_to_cart db (add_to_cart db [] pid).2.2 pid).2.2 = [⟨pid, 2⟩] := by
  have h1 : ∀ cart : Cart, add_to_cart db cart pid = (.ok, db, incQty pid cart) :=
    fun cart => add_to_cart_of_stock_pos db cart pid p hp hs
  refine ⟨?_, ?_, ?_⟩
  · intro cart hc; rw [h1]; exact incQty_pairwise pid cart hc
  · intro cart hc; rw [h1]; exact incQty_length_of_mem pid cart hc
  · rw [h1, h1]
    simp [incQty]

/-- Witness for C5 at the concrete store `dbA`: the double-add instance. -/
theorem cart_dedup_witness :
    (add_to_cart dbA (add_to_cart dbA [] 1).2.2 1).2.2 = [⟨1, 2⟩] :=
  (cart_dedup dbA 1 ⟨1, "Headphones", "d", 2000, 1, "h.jpg"⟩ rfl (by decide)).2.2

/-! ### C8: admin product edit never touches order items -/

/-- C8: whenever `admin_edit_product` succeeds (the product id exists), the
resulting store has exactly the same order-items table and orders table:
every existing `OrderItem` keeps its `price_at_purchase` and `quantity`,
so the snapshot taken at checkout time is never recomputed. -/
theorem admin_edit_preserves_order_items (db : DB) (pid : Nat) (n d : String)
    (pr st : Int) (im : String) (db2 : DB)
    (h : admin_edit_product db pid n d pr st im = some db2) :
    db2.order_items = db.order_items ∧ db2.orders = db.orders := by
  cases hf : findProduct db pid with
  | none => simp [admin_edit_product, hf] at h
  | some p =>
    simp only [admin_edit_product, hf, Option.map_some', Option.some.injEq] at h
    rw [← h]
    exact ⟨rfl, rfl⟩

/-- A concrete store with one product, one order and one order item, used by
the admin-edit witness. -/
def dbEditW : DB :=
  ⟨[⟨1, "n", "d", 5, 3, "i"⟩], [⟨1, 2, "Pending", "a", "p"⟩], [⟨1, 1, 1, 1, 999⟩], 2, 2, 2⟩

/-- Witness for C8: editing product 1 of `dbEditW` (price 5 → 7, stock
3 → 4) leaves the order-items and orders tables untouched. -/
theorem admin_edit_preserves_order_items_witness :
    ∃ db2, admin_edit_product dbEditW 1 "m" "e" 7 4 "j" = some db2 ∧
      db2.order_items = dbEditW.order_items ∧ db2.orders = dbEditW.orders :=
  ⟨⟨[⟨1, "m", "e", 7, 4, "j"⟩], [⟨1, 2, "Pending", "a", "p"⟩], [⟨1, 1, 1, 1, 999⟩], 2, 2, 2⟩,
   rfl,
   admin_edit_preserves_order_items dbEditW 1 "m" "e" 7 4 "j" _ rfl⟩

/-! ### C7: cart listing tolerates stale references -/

theorem view_cart_foldl (db : DB) (cart : Cart) :
    ∀ acc : List CartItemView × Int,
      cart.foldl
        (fun acc e =>
          match findProduct db e.id with
          | none => acc
          | some p =>
            (acc.1 ++ [⟨p, e.qty, p.price * (e.qty : Int)⟩],
             acc.2 + p.price * (e.qty : Int)))
        acc
      = (acc.1 ++ viewCartSpecItems db cart,
         acc.2 + ((viewCartSpecItems db cart).map (fun it => it.line_total)).sum) := by
  induction cart with
  | nil => intro acc; simp [viewCartSpecItems]
  | cons e rest ih =>
    intro acc
    rw [List.foldl_cons]
    cases hf : findProduct db e.id with
    | none =>
      rw [ih]
      simp [viewCartSpecItems, List.filterMap_cons, hf]
    | some p =>
      rw [ih]
      simp only [viewCartSpecItems, List.filterMap_cons, hf, Option.map_some',
        List.map_cons, List.sum_cons, Prod.mk.injEq]
      constructor
      · rw [List.append_assoc, List.singleton_append]
      · omega

/-- C7: `view_cart` renders exactly one line per cart entry whose product
still exists (entries referencing a deleted product are silently skipped),
each line joining live product data with line total `price * qty`, and the
reported total is the sum of the rendered line totals.  `view_cart` is a
pure projection: it returns no updated store or cart, mirroring the
read-only route. -/
theorem view_cart_stale_tolerance (db : DB) (cart : Cart) :
    (view_cart db cart).1 = viewCartSpecItems db cart ∧
    (view_cart db cart).2 =
      (((view_cart db cart).1).map (fun it => it.line_total)).sum := by
  have h := view_cart_foldl db cart ([], 0)
  unfold view_cart
  rw [h]
  simp

/-! ### Lemmas about stock updates and primary-key lookup -/

theorem find?_setStock_of_ne (pid x : Nat) (s : Int) (ps : List Product) (h : x ≠ pid) :
    (setStock pid s ps).find? (fun p => p.id == x) = ps.find? (fun p => p.id == x) := by
  induction ps with
  | nil => rfl
  | cons p rest ih =>
    by_cases hp : p.id = pid
    · have h1 : ¬ p.id = x := by rw [hp]; exact fun hc => h hc.symm
      simp only [setStock, if_pos hp]
      simp [List.find?_cons, h1]
    · simp only [setStock, if_neg hp]
      by_cases hpx : p.id = x
      · simp [List.find?_cons, hpx]
      · simp [List.find?_cons, hpx, ih]

theorem find?_setStock_self (pid : Nat) (s : Int) (ps : List Product) :
    (setStock pid s ps).find? (fun p => p.id == pid) =
      (ps.find? (fun p => p.id == pid)).map (fun p => { p with stock := s }) := by
  induction ps with
  | nil => rfl
  | cons p rest ih =>
    by_cases hp : p.id = pid
    · simp only [setStock, if_pos hp]
      simp [List.find?_cons, hp]
    · simp only [setStock, if_neg hp]
      simp [List.find?_cons, hp, ih]

theorem isSome_find?_setStock (pid x : Nat) (s : Int) (ps : List Product) :
    ((setStock pid s ps).find? (fun p => p.id == x)).isSome =
      (ps.find? (fun p => p.id == x)).isSome := by
  by_cases h : x = pid
  · subst h; rw [find?_setStock_self, Option.isSome_map']
  · rw [find?_setStock_of_ne pid x s ps h]

theorem setStock_stock_nonneg (pid : Nat) (s : Int) (ps : List Product)
    (h : ∀ p ∈ ps, 0 ≤ p.stock) (hs : 0 ≤ s) :
    ∀ p ∈ setStock pid s ps, 0 ≤ p.stock := by
  induction ps with
  | nil => simp [setStock]
  | cons p rest ih =>
    intro q hq
    rw [setStock] at hq
    by_cases hp : p.id = pid
    · rw [if_pos hp] at hq
      rcases List.mem_cons.mp hq with rfl | hq2
      · exact hs
      · exact h q (List.mem_cons_of_mem _ hq2)
    · rw [if_neg hp] at hq
      rcases List.mem_cons.mp hq with rfl | hq2
      · exact h q (List.mem_cons_self _ _)
      · exact ih (fun r hr => h r (List.mem_cons_of_mem _ hr)) q hq2

/-! ### C1: checkout aborts atomically on a stock shortfall -/

theorem checkoutLoop_shortfall (oid : Nat) (entries : Cart) :
    ∀ (ps : List Product) (items : List OrderItem) (nid : Nat),
      (∃ e ∈ entries, ∃ p, ps.find? (fun q => q.id == e.id) = some p ∧
        p.stock < (e.qty : Int)) →
      ∃ pname, checkoutLoop oid entries ps items nid = .error pname := by
  induction entries with
  | nil => intro ps items nid h; simp at h
  | cons e rest ih =>
    intro ps items nid h
    cases hf : ps.find? (fun q => q.id == e.id) with
    | none =>
      have h2 : ∃ e2 ∈ rest, ∃ p2, ps.find? (fun q => q.id == e2.id) = some p2 ∧
          p2.stock < (e2.qty : Int) := by
        obtain ⟨e0, he0, p0, hp0, hs0⟩ := h
        rcases List.mem_cons.mp he0 with rfl | he0r
        · rw [hf] at hp0; exact absurd hp0 (by simp)
        · exact ⟨e0, he0r, p0, hp0, hs0⟩
      obtain ⟨pname, hpn⟩ := ih ps items nid h2
      refine ⟨pname, ?_⟩
      simp only [checkoutLoop, hf]
      exact hpn
    | some p =>
      by_cases hlt : p.stock < (e.qty : Int)
      · refine ⟨p.name, ?_⟩
        simp only [checkoutLoop, hf, if_pos hlt]
      · have h2 : ∃ e2 ∈ rest, ∃ p2,
            (setStock e.id (p.stock - (e.qty : Int)) ps).find?
              (fun q => q.id == e2.id) = some p2 ∧ p2.stock < (e2.qty : Int) := by
          obtain ⟨e0, he0, p0, hp0, hs0⟩ := h
          rcases List.mem_cons.mp he0 with rfl | he0r
          · rw [hf] at hp0
            injection hp0 with hq
            subst hq
            exact absurd hs0 hlt
          · by_cases hid : e0.id = e.id
            · rw [hid, hf] at hp0
              injection hp0 with hq
              refine ⟨e0, he0r, { p with stock := p.stock - (e.qty : Int) }, ?_, ?_⟩
              · rw [hid, find?_setStock_self, hf, Option.map_some']
              · have hq0 : (0 : Int) ≤ (e.qty : Int) := Int.natCast_nonneg _
                subst hq
                simp only
                omega
            · refine ⟨e0, he0r, p0, ?_, hs0⟩
              rw [find?_setStock_of_ne e.id e0.id _ ps hid]
              exact hp0
        obtain ⟨pname, hpn⟩ := ih _ _ _ h2
        refine ⟨pname, ?_⟩
        simp only [checkoutLoop, hf, if_neg hlt]
        exact hpn

theorem checkoutLoop_shortfall_names (oid : Nat) (entries : Cart) :
    ∀ (ps : List Product) (items : List OrderItem) (nid : Nat),
      entries.Pairwise (fun x y => x.id ≠ y.id) →
      (∃ e ∈ entries, ∃ p, ps.find? (fun q => q.id == e.id) = some p ∧
        p.stock < (e.qty : Int)) →
      ∃ pname e2 p2, checkoutLoop oid entries ps items nid = .error pname ∧
        e2 ∈ entries ∧ ps.find? (fun q => q.id == e2.id) = some p2 ∧
        p2.stock < (e2.qty : Int) ∧ p2.name = pname := by
  induction entries with
  | nil => intro ps items nid _ h; simp at h
  | cons e rest ih =>
    intro ps items nid hded h
    rw [List.pairwise_cons] at hded
    obtain ⟨hded1, hded2⟩ := hded
    cases hf : ps.find? (fun q => q.id == e.id) with
    | none =>
      have h2 : ∃ e2 ∈ rest, ∃ p2, ps.find? (fun q => q.id == e2.id) = some p2 ∧
          p2.stock < (e2.qty : Int) := by
        obtain ⟨e0, he0, p0, hp0, hs0⟩ := h
        rcases List.mem_cons.mp he0 with rfl | he0r
        · rw [hf] at hp0; exact absurd hp0 (by simp)
        · exact ⟨e0, he0r, p0, hp0, hs0⟩
      obtain ⟨pname, e2, p2, hl, he2, hp2, hs2, hn2⟩ := ih ps items nid hded2 h2
      refine ⟨pname, e2, p2, ?_, List.mem_cons_of_mem _ he2, hp2, hs2, hn2⟩
      simp only [checkoutLoop, hf]
      exact hl
    | some p =>
      by_cases hlt : p.stock < (e.qty : Int)
      · refine ⟨p.name, e, p, ?_, List.mem_cons_self _ _, hf, hlt, rfl⟩
        simp only [checkoutLoop, hf, if_pos hlt]
      · have h2 : ∃ e2 ∈ rest, ∃ p2,
            (setStock e.id (p.stock - (e.qty : Int)) ps).find?
              (fun q => q.id == e2.id) = some p2 ∧ p2.stock < (e2.qty : Int) := by
          obtain ⟨e0, he0, p0, hp0, hs0⟩ := h
          rcases List.mem_cons.mp he0 with rfl | he0r
          · rw [hf] at hp0
            injection hp0 with hq
            subst hq
            exact absurd hs0 hlt
          · have hne : e0.id ≠ e.id := fun hc => (hded1 e0 he0r) hc.symm
            refine ⟨e0, he0r, p0, ?_, hs0⟩
            rw [find?_setStock_of_ne e.id e0.id _ ps hne]
            exact hp0
        obtain ⟨pname, e2, p2, hl, he2, hp2, hs2, hn2⟩ :=
          ih (setStock e.id (p.stock - (e.qty : Int)) ps)
            (items ++ [⟨nid, oid, p.id, e.qty, p.price⟩]) (nid + 1) hded2 h2
        have hne2 : e2.id ≠ e.id := fun hc => (hded1 e2 he2) hc.symm
        refine ⟨pname, e2, p2, ?_, List.mem_cons_of_mem _ he2, ?_, hs2, hn2⟩
        · simp only [checkoutLoop, hf, if_neg hlt]
          exact hl
        · rw [← find?_setStock_of_ne e.id e2.id (p.stock - (e.qty : Int)) ps hne2]
          exact hp2

/-- C1: if some cart entry references an existing product whose current
stock is below that entry's quantity, checkout fails with
InsufficientStock and the rollback leaves the whole store and the cart
byte-for-byte unchanged; moreover (for a deduplicated cart, the only kind
the program builds) the reported name is the name of an offending cart
product — one whose pre-checkout stock is below its requested quantity. -/
theorem checkout_insufficient (uid : Nat) (a ph : String) (db : DB) (cart : Cart)
    (e : CartEntry) (p : Product) (he : e ∈ cart)
    (hp : findProduct db e.id = some p) (hshort : p.stock < (e.qty : Int)) :
    ∃ pname, checkout uid a ph db cart = (.insufficientStock pname, db, cart) ∧
      (cart.Pairwise (fun x y => x.id ≠ y.id) →
        ∃ e2 ∈ cart, ∃ p2, findProduct db e2.id = some p2 ∧
          p2.stock < (e2.qty : Int) ∧ p2.name = pname) := by
  have hne : cart.isEmpty = false := by
    cases cart
    · simp at he
    · rfl
  obtain ⟨pname, hloop⟩ := checkoutLoop_shortfall db.next_order_id cart db.products
    db.order_items db.next_item_id ⟨e, he, p, hp, hshort⟩
  refine ⟨pname, ?_, ?_⟩
  · simp [checkout, hne, hloop]
  · intro hded
    obtain ⟨pname2, e2, p2, hl2, he2, hp2, hs2, hn2⟩ :=
      checkoutLoop_shortfall_names db.next_order_id cart db.products
        db.order_items db.next_item_id hded ⟨e, he, p, hp, hshort⟩
    rw [hloop] at hl2
    injection hl2 with hl2e
    exact ⟨e2, he2, p2, hp2, hs2, by rw [hn2, hl2e]⟩

/-- Witness for C1: one product with stock 0, cart asking for quantity 1;
checkout fails naming it and changes nothing. -/
theorem checkout_insufficient_witness :
    ∃ pname,
      checkout 1 "addr" "ph" ⟨[⟨1, "Headphones", "d", 2000, 0, "h.jpg"⟩], [], [], 2, 1, 1⟩
          [⟨1, 1⟩] =
        (.insufficientStock pname,
         ⟨[⟨1, "Headphones", "d", 2000, 0, "h.jpg"⟩], [], [], 2, 1, 1⟩, [⟨1, 1⟩]) ∧
      (([⟨1, 1⟩] : Cart).Pairwise (fun x y => x.id ≠ y.id) →
        ∃ e2 ∈ ([⟨1, 1⟩] : Cart), ∃ p2,
          findProduct ⟨[⟨1, "Headphones", "d", 2000, 0, "h.jpg"⟩], [], [], 2, 1, 1⟩ e2.id =
            some p2 ∧ p2.stock < (e2.qty : Int) ∧ p2.name = pname) :=
  checkout_insufficient 1 "addr" "ph" _ _ ⟨1, 1⟩ ⟨1, "Headphones", "d", 2000, 0, "h.jpg"⟩
    (List.mem_singleton.mpr rfl) rfl (by decide)

/-! ### C3: successful checkout -/

theorem checkoutLoop_success (oid : Nat) (entries : Cart) :
    ∀ (ps : List Product) (items : List OrderItem) (nid : Nat),
      entries.Pairwise (fun x y => x.id ≠ y.id) →
      (∀ e ∈ entries, ∃ p, ps.find? (fun q => q.id == e.id) = some p ∧
        (e.qty : Int) ≤ p.stock) →
      ∃ ps2 newItems,
        checkoutLoop oid entries ps items nid =
          .ok (ps2, items ++ newItems, nid + newItems.length) ∧
        newItems.length = entries.length ∧
        (∀ (i : Nat) (e : CartEntry) (p : Product), entries[i]? = some e →
          ps.find? (fun q => q.id == e.id) = some p →
          newItems[i]? = some ⟨nid + i, oid, p.id, e.qty, p.price⟩) ∧
        (∀ e ∈ entries, ∀ p, ps.find? (fun q => q.id == e.id) = some p →
          ps2.find? (fun q => q.id == e.id) =
            some { p with stock := p.stock - (e.qty : Int) }) ∧
        (∀ x : Nat, (∀ e ∈ entries, e.id ≠ x) →
          ps2.find? (fun q => q.id == x) = ps.find? (fun q => q.id == x)) := by
  induction entries with
  | nil =>
    intro ps items nid _ _
    refine ⟨ps, [], by simp [checkoutLoop], rfl, ?_, ?_, fun x _ => rfl⟩
    · intro i e p hi
      simp at hi
    · intro e he
      simp at he
  | cons e rest ih =>
    intro ps items nid hded hex
    rw [List.pairwise_cons] at hded
    obtain ⟨hded1, hded2⟩ := hded
    obtain ⟨p, hp, hple⟩ := hex e (List.mem_cons_self _ _)
    have hnlt : ¬ p.stock < (e.qty : Int) := by omega
    have hex2 : ∀ e2 ∈ rest, ∃ p2,
        (setStock e.id (p.stock - (e.qty : Int)) ps).find?
          (fun q => q.id == e2.id) = some p2 ∧ (e2.qty : Int) ≤ p2.stock := by
      intro e2 he2
      obtain ⟨p2, hp2, hple2⟩ := hex e2 (List.mem_cons_of_mem _ he2)
      have hne : e2.id ≠ e.id := fun hc => (hded1 e2 he2) hc.symm
      refine ⟨p2, ?_, hple2⟩
      rw [find?_setStock_of_ne e.id e2.id _ ps hne]
      exact hp2
    obtain ⟨ps2, newI, hloop, hlen, hitems, hstocks, hframe⟩ :=
      ih (setStock e.id (p.stock - (e.qty : Int)) ps)
        (items ++ [⟨nid, oid, p.id, e.qty, p.price⟩]) (nid + 1) hded2 hex2
    refine ⟨ps2, ⟨nid, oid, p.id, e.qty, p.price⟩ :: newI, ?_, ?_, ?_, ?_, ?_⟩
    · simp only [checkoutLoop, hp, if_neg hnlt]
      rw [hloop, List.append_assoc, List.singleton_append, List.length_cons]
      have harith : nid + 1 + newI.length = nid + (newI.length + 1) := by omega
      rw [harith]
    · simp [hlen]
    · intro i e2 p2 hi hp2
      cases i with
      | zero =>
        rw [List.getElem?_cons_zero] at hi
        injection hi with hie
        subst hie
        rw [hp] at hp2
        injection hp2 with hpe
        subst hpe
        rw [List.getElem?_cons_zero, Nat.add_zero]
      | succ j =>
        rw [List.getElem?_cons_succ] at hi
        have he2mem : e2 ∈ rest := List.getElem?_mem hi
        have hne : e2.id ≠ e.id := fun hc => (hded1 e2 he2mem) hc.symm
        have hp2s : (setStock e.id (p.stock - (e.qty : Int)) ps).find?
            (fun q => q.id == e2.id) = some p2 := by
          rw [find?_setStock_of_ne e.id e2.id _ ps hne]
          exact hp2
        have hj := hitems j e2 p2 hi hp2s
        rw [List.getElem?_cons_succ, hj]
        have harith : nid + 1 + j = nid + (j + 1) := by omega
        rw [harith]
    · intro e2 he2 p2 hp2
      rcases List.mem_cons.mp he2 with rfl | he2r
      · rw [hp] at hp2
        injection hp2 with hpe
        subst hpe
        rw [hframe e2.id (fun e3 he3 => fun hc => (hded1 e3 he3) hc.symm),
          find?_setStock_self, hp, Option.map_some']
      · have hne : e2.id ≠ e.id := fun hc => (hded1 e2 he2r) hc.symm
        have hp2s : (setStock e.id (p.stock - (e.qty : Int)) ps).find?
            (fun q => q.id == e2.id) = some p2 := by
          rw [find?_setStock_of_ne e.id e2.id _ ps hne]
          exact hp2
        exact hstocks e2 he2r p2 hp2s
    · intro x hx
      have hxe : e.id ≠ x := hx e (List.mem_cons_self _ _)
      rw [hframe x (fun e3 he3 => hx e3 (List.mem_cons_of_mem _ he3))]
      exact find?_setStock_of_ne e.id x _ ps (fun hc => hxe hc.symm)

/-- C3: for every non-empty deduplicated cart (the only kind the program's
cart operations build) in which every entry references an existing product
with stock at least the entry's quantity, a checkout POST succeeds:
exactly one new Order in status "Pending" owned by the calling user is
appended, one OrderItem per cart entry is appended whose quantity is the
cart quantity and whose price_at_purchase is the product's price at
checkout time, every cart product's stock is decremented by exactly its
cart quantity (all other products untouched), and the cart is cleared. -/
theorem checkout_success (uid : Nat) (a ph : String) (db : DB) (cart : Cart)
    (hne : cart ≠ [])
    (hded : cart.Pairwise (fun x y => x.id ≠ y.id))
    (hex : ∀ e ∈ cart, ∃ p, findProduct db e.id = some p ∧ (e.qty : Int) ≤ p.stock) :
    ∃ db2 newItems,
      checkout uid a ph db cart = (.ok db.next_order_id, db2, []) ∧
      db2.orders = db.orders ++ [⟨db.next_order_id, uid, "Pending", a, ph⟩] ∧
      db2.order_items = db.order_items ++ newItems ∧
      newItems.length = cart.length ∧
      (∀ (i : Nat) (e : CartEntry) (p : Product), cart[i]? = some e →
        findProduct db e.id = some p →
        newItems[i]? =
          some ⟨db.next_item_id + i, db.next_order_id, p.id, e.qty, p.price⟩) ∧
      (∀ e ∈ cart, ∀ p, findProduct db e.id = some p →
        findProduct db2 e.id = some { p with stock := p.stock - (e.qty : Int) }) ∧
      (∀ x : Nat, (∀ e ∈ cart, e.id ≠ x) → findProduct db2 x = findProduct db x) := by
  have hemp : cart.isEmpty = false := by
    cases cart
    · exact absurd rfl hne
    · rfl
  obtain ⟨ps2, newI, hloop, hlen, hitems, hstocks, hframe⟩ :=
    checkoutLoop_success db.next_order_id cart db.products db.order_items
      db.next_item_id hded hex
  refine ⟨{ products := ps2,
            orders := db.orders ++ [⟨db.next_order_id, uid, "Pending", a, ph⟩],
            order_items := db.order_items ++ newI,
            next_product_id := db.next_product_id,
            next_order_id := db.next_order_id + 1,
            next_item_id := db.next_item_id + newI.length }, newI,
          ?_, rfl, rfl, hlen, hitems, hstocks, hframe⟩
  simp [checkout, hemp, hloop]

/-- Witness for C3: Scenario A of the spec, on the store `dbA` (stock 1,
price 2000) with a one-entry cart of quantity 1. -/
theorem checkout_success_witness :
    ∃ db2 newItems,
      checkout 1 "addr" "ph" dbA [⟨1, 1⟩] = (.ok dbA.next_order_id, db2, []) ∧
      db2.orders = dbA.orders ++ [⟨dbA.next_order_id, 1, "Pending", "addr", "ph"⟩] ∧
      db2.order_items = dbA.order_items ++ newItems ∧
      newItems.length = ([⟨1, 1⟩] : Cart).length ∧
      (∀ (i : Nat) (e : CartEntry) (p : Product), ([⟨1, 1⟩] : Cart)[i]? = some e →
        findProduct dbA e.id = some p →
        newItems[i]? =
          some ⟨dbA.next_item_id + i, dbA.next_order_id, p.id, e.qty, p.price⟩) ∧
      (∀ e ∈ ([⟨1, 1⟩] : Cart), ∀ p, findProduct dbA e.id = some p →
        findProduct db2 e.id = some { p with stock := p.stock - (e.qty : Int) }) ∧
      (∀ x : Nat, (∀ e ∈ ([⟨1, 1⟩] : Cart), e.id ≠ x) →
        findProduct db2 x = findProduct dbA x) :=
  checkout_success 1 "addr" "ph" dbA [⟨1, 1⟩] (by decide)
    (List.pairwise_singleton _ _)
    (by
      intro e he
      rw [List.mem_singleton] at he
      subst he
      exact ⟨⟨1, "Headphones", "d", 2000, 1, "h.jpg"⟩, rfl, by decide⟩)

/-! ### C9: order items created by a successful checkout -/

theorem checkoutLoop_ok_items (oid : Nat) (entries : Cart) :
    ∀ (ps : List Product) (items : List OrderItem) (nid : Nat)
      (ps2 : List Product) (items2 : List OrderItem) (nid2 : Nat),
      checkoutLoop oid entries ps items nid = .ok (ps2, items2, nid2) →
      ∃ newItems, items2 = items ++ newItems ∧
        newItems.length =
          entries.countP (fun e => (ps.find? (fun q => q.id == e.id)).isSome) ∧
        ∀ it ∈ newItems, it.order_id = oid := by
  induction entries with
  | nil =>
    intro ps items nid ps2 items2 nid2 h
    simp only [checkoutLoop, Except.ok.injEq, Prod.mk.injEq] at h
    obtain ⟨_, h2, _⟩ := h
    refine ⟨[], by rw [← h2, List.append_nil], by simp, by simp⟩
  | cons e rest ih =>
    intro ps items nid ps2 items2 nid2 h
    cases hf : ps.find? (fun q => q.id == e.id) with
    | none =>
      simp only [checkoutLoop, hf] at h
      obtain ⟨newI, h1, h2, h3⟩ := ih ps items nid ps2 items2 nid2 h
      refine ⟨newI, h1, ?_, h3⟩
      rw [h2, List.countP_cons_of_neg]
      rw [hf]
      simp
    | some p =>
      by_cases hlt : p.stock < (e.qty : Int)
      · simp only [checkoutLoop, hf, if_pos hlt] at h
        exact absurd h (by simp)
      · simp only [checkoutLoop, hf, if_neg hlt] at h
        obtain ⟨newI, h1, h2, h3⟩ := ih _ _ _ _ _ _ h
        refine ⟨⟨nid, oid, p.id, e.qty, p.price⟩ :: newI, ?_, ?_, ?_⟩
        · rw [h1, List.append_assoc, List.singleton_append]
        · rw [List.countP_cons_of_pos]
          · rw [List.length_cons, h2]
            have hcong :
                rest.countP (fun e2 =>
                  ((setStock e.id (p.stock - (e.qty : Int)) ps).find?
                    (fun q => q.id == e2.id)).isSome) =
                rest.countP (fun e2 => (ps.find? (fun q => q.id == e2.id)).isSome) :=
              List.countP_congr (fun e2 _ => by
                rw [isSome_find?_setStock e.id e2.id (p.stock - (e.qty : Int)) ps])
            rw [hcong]
          · rw [hf]
            rfl
        · intro it hit
          rcases List.mem_cons.mp hit with rfl | hit2
          · rfl
          · exact h3 it hit2

/-- C9 counterexample: with an empty catalogue and a non-empty cart whose
single entry references the deleted product 1, a checkout POST succeeds
and commits an Order, yet persists no OrderItem at all for it — refuting
"every persisted Order owns one or more OrderItems". -/
theorem order_has_item_counterexample :
    (checkout 7 "a" "p" ⟨[], [], [], 1, 1, 1⟩ [⟨1, 1⟩]).1 = .ok 1 ∧
    (checkout 7 "a" "p" ⟨[], [], [], 1, 1, 1⟩ [⟨1, 1⟩]).2.1.orders =
      [⟨1, 7, "Pending", "a", "p"⟩] ∧
    (checkout 7 "a" "p" ⟨[], [], [], 1, 1, 1⟩ [⟨1, 1⟩]).2.1.order_items = [] :=
  ⟨rfl, rfl, rfl⟩

/-- C9 amended: a successful checkout appends exactly one OrderItem per cart
entry whose product still exists, all owned by the new order; in
particular the order has at least one item only when some cart entry
references an existing product — a cart made solely of stale references
still checks out and leaves an Order with zero OrderItems. -/
theorem checkout_items_per_existing_entry (uid : Nat) (a ph : String) (db : DB)
    (cart : Cart) (oid : Nat)
    (h : (checkout uid a ph db cart).1 = .ok oid) :
    ∃ newItems,
      (checkout uid a ph db cart).2.1.order_items = db.order_items ++ newItems ∧
      newItems.length = cart.countP (fun e => (findProduct db e.id).isSome) ∧
      (∀ it ∈ newItems, it.order_id = oid) ∧
      (newItems = [] ↔ ∀ e ∈ cart, findProduct db e.id = none) := by
  cases hemp : cart.isEmpty with
  | true => simp [checkout, hemp] at h
  | false =>
    cases hloop : checkoutLoop db.next_order_id cart db.products db.order_items
        db.next_item_id with
    | error s => simp [checkout, hemp, hloop] at h
    | ok t =>
      obtain ⟨ps2, items2, nid2⟩ := t
      have hoid : oid = db.next_order_id := by
        simp [checkout, hemp, hloop] at h
        exact h.symm
      obtain ⟨newI, h1, h2, h3⟩ := checkoutLoop_ok_items db.next_order_id cart
        db.products db.order_items db.next_item_id ps2 items2 nid2 hloop
      refine ⟨newI, ?_, h2, ?_, ?_⟩
      · have hitems : (checkout uid a ph db cart).2.1.order_items = items2 := by
          simp [checkout, hemp, hloop]
        rw [hitems, h1]
      · intro it hit
        rw [hoid]
        exact h3 it hit
      · constructor
        · intro hnil e he
          rw [hnil] at h2
          have hz : cart.countP (fun e => (findProduct db e.id).isSome) = 0 := h2.symm
          exact Option.not_isSome_iff_eq_none.mp (List.countP_eq_zero.mp hz e he)
        · intro hall
          have hz : cart.countP (fun e => (findProduct db e.id).isSome) = 0 :=
            List.countP_eq_zero.mpr (fun e he => by rw [hall e he]; simp)
          simp only [findProduct] at hz
          rw [hz] at h2
          exact List.length_eq_zero.mp h2

/-- Witness for the amended C9 at the all-stale-cart input: the item list it
produces is empty, matching the zero count of existing-product entries. -/
theorem checkout_items_per_existing_entry_witness :
    ∃ newItems,
      (checkout 7 "a" "p" ⟨[], [], [], 1, 1, 1⟩ [⟨1, 1⟩]).2.1.order_items =
        (⟨[], [], [], 1, 1, 1⟩ : DB).order_items ++ newItems ∧
      newItems.length =
        ([⟨1, 1⟩] : Cart).countP
          (fun e => (findProduct ⟨[], [], [], 1, 1, 1⟩ e.id).isSome) ∧
      (∀ it ∈ newItems, it.order_id = 1) ∧
      (newItems = [] ↔ ∀ e ∈ ([⟨1, 1⟩] : Cart),
        findProduct ⟨[], [], [], 1, 1, 1⟩ e.id = none) :=
  checkout_items_per_existing_entry 7 "a" "p" ⟨[], [], [], 1, 1, 1⟩ [⟨1, 1⟩] 1 rfl

/-! ### C2: non-negative stock across reachable states -/

/-- C2 counterexample: from a store whose only product has stock 10 (and an
empty cart), the single admin-edit operation submitting stock -1 is
accepted by the program and leaves that product with stock -1, refuting
"p.stock ≥ 0 whenever p exists, at every state reachable by the
program's operations". -/
theorem stock_nonneg_counterexample :
    ∃ p ∈ (runOps (⟨[⟨1, "Laptop", "d", 55000, 10, "l.jpg"⟩], [], [], 2, 1, 1⟩, ([] : Cart))
        [.adminEdit 1 "Laptop" "d" 55000 (-1) "l.jpg"]).1.products,
      p.stock < 0 := by
  refine ⟨⟨1, "Laptop", "d", 55000, -1, "l.jpg"⟩, ?_, by decide⟩
  have hrun : (runOps (⟨[⟨1, "Laptop", "d", 55000, 10, "l.jpg"⟩], [], [], 2, 1, 1⟩, ([] : Cart))
      [.adminEdit 1 "Laptop" "d" 55000 (-1) "l.jpg"]).1.products =
      [⟨1, "Laptop", "d", 55000, -1, "l.jpg"⟩] := rfl
  rw [hrun]
  exact List.mem_singleton.mpr rfl

theorem add_to_cart_db_eq (db : DB) (cart : Cart) (pid : Nat) :
    (add_to_cart db cart pid).2.1 = db := by
  unfold add_to_cart
  cases findProduct db pid with
  | none => rfl
  | some p => by_cases h : p.stock ≤ 0 <;> simp [h]

theorem checkoutLoop_stock_nonneg (oid : Nat) (entries : Cart) :
    ∀ (ps : List Product) (items : List OrderItem) (nid : Nat)
      (ps2 : List Product) (items2 : List OrderItem) (nid2 : Nat),
      (∀ p ∈ ps, 0 ≤ p.stock) →
      checkoutLoop oid entries ps items nid = .ok (ps2, items2, nid2) →
      ∀ p ∈ ps2, 0 ≤ p.stock := by
  induction entries with
  | nil =>
    intro ps items nid ps2 items2 nid2 hnn h
    simp only [checkoutLoop, Except.ok.injEq, Prod.mk.injEq] at h
    obtain ⟨h1, _, _⟩ := h
    rw [← h1]
    exact hnn
  | cons e rest ih =>
    intro ps items nid ps2 items2 nid2 hnn h
    cases hf : ps.find? (fun q => q.id == e.id) with
    | none =>
      simp only [checkoutLoop, hf] at h
      exact ih ps items nid ps2 items2 nid2 hnn h
    | some p =>
      by_cases hlt : p.stock < (e.qty : Int)
      · simp only [checkoutLoop, hf, if_pos hlt] at h
        exact absurd h (by simp)
      · simp only [checkoutLoop, hf, if_neg hlt] at h
        refine ih _ _ _ _ _ _ ?_ h
        refine setStock_stock_nonneg e.id (p.stock - (e.qty : Int)) ps hnn ?_
        have hq := Int.natCast_nonneg e.qty
        omega

theorem checkout_stock_nonneg (uid : Nat) (a ph : String) (db : DB) (cart : Cart)
    (hnn : ∀ p ∈ db.products, 0 ≤ p.stock) :
    ∀ p ∈ (checkout uid a ph db cart).2.1.products, 0 ≤ p.stock := by
  cases hemp : cart.isEmpty with
  | true =>
    intro q hq
    simp only [checkout, hemp, if_true] at hq
    exact hnn q hq
  | false =>
    cases hloop : checkoutLoop db.next_order_id cart db.products db.order_items
        db.next_item_id with
    | error s =>
      intro q hq
      simp only [checkout, hemp, Bool.false_eq_true, if_false, hloop] at hq
      exact hnn q hq
    | ok t =>
      obtain ⟨ps2, items2, nid2⟩ := t
      intro q hq
      simp only [checkout, hemp, Bool.false_eq_true, if_false, hloop] at hq
      exact checkoutLoop_stock_nonneg db.next_order_id cart db.products
        db.order_items db.next_item_id ps2 items2 nid2 hnn hloop q hq

theorem editFirst_stock_nonneg (pid : Nat) (f : Product → Product) (ps : List Product)
    (h : ∀ p ∈ ps, 0 ≤ p.stock) (hf : ∀ p, 0 ≤ (f p).stock) :
    ∀ p ∈ editFirst pid f ps, 0 ≤ p.stock := by
  induction ps with
  | nil => simp [editFirst]
  | cons p rest ih =>
    intro q hq
    rw [editFirst] at hq
    by_cases hp : p.id = pid
    · rw [if_pos hp] at hq
      rcases List.mem_cons.mp hq with rfl | hq2
      · exact hf p
      · exact h q (List.mem_cons_of_mem _ hq2)
    · rw [if_neg hp] at hq
      rcases List.mem_cons.mp hq with rfl | hq2
      · exact h q (List.mem_cons_self _ _)
      · exact ih (fun r hr => h r (List.mem_cons_of_mem _ hr)) q hq2

theorem removeFirst_subset (pid : Nat) (ps : List Product) :
    ∀ p ∈ removeFirst pid ps, p ∈ ps := by
  induction ps with
  | nil => simp [removeFirst]
  | cons p rest ih =>
    intro q hq
    rw [removeFirst] at hq
    by_cases hp : p.id = pid
    · rw [if_pos hp] at hq
      exact List.mem_cons_of_mem _ hq
    · rw [if_neg hp] at hq
      rcases List.mem_cons.mp hq with rfl | hq2
      · exact List.mem_cons_self _ _
      · exact List.mem_cons_of_mem _ (ih q hq2)

theorem applyOp_stock_nonneg (s : DB × Cart) (op : Op)
    (hnn : ∀ p ∈ s.1.products, 0 ≤ p.stock) (hok : opStockOK op = true) :
    ∀ p ∈ (applyOp s op).1.products, 0 ≤ p.stock := by
  cases op with
  | addToCart pid =>
    intro q hq
    simp only [applyOp, add_to_cart_db_eq] at hq
    exact hnn q hq
  | removeFromCart i => exact hnn
  | checkoutOp uid a ph => exact checkout_stock_nonneg uid a ph s.1 s.2 hnn
  | adminAdd n d pr st im =>
    intro q hq
    simp only [applyOp, admin_add_product] at hq
    rcases List.mem_append.mp hq with h1 | h1
    · exact hnn q h1
    · rw [List.mem_singleton] at h1
      subst h1
      simpa [opStockOK] using hok
  | adminEdit pid n d pr st im =>
    intro q hq
    have hst : (0 : Int) ≤ st := by simpa [opStockOK] using hok
    simp only [applyOp] at hq
    cases hf : findProduct s.1 pid with
    | none =>
      simp only [admin_edit_product, hf, Option.map_none', Option.getD_none] at hq
      exact hnn q hq
    | some p =>
      simp only [admin_edit_product, hf, Option.map_some', Option.getD_some] at hq
      exact editFirst_stock_nonneg pid _ s.1.products hnn (fun r => hst) q hq
  | adminDelete pid =>
    intro q hq
    simp only [applyOp] at hq
    cases hf : findProduct s.1 pid with
    | none =>
      simp only [admin_delete_product, hf, Option.map_none', Option.getD_none] at hq
      exact hnn q hq
    | some p =>
      simp only [admin_delete_product, hf, Option.map_some', Option.getD_some] at hq
      exact hnn q (removeFirst_subset pid s.1.products q hq)
  | adminStatus oid st =>
    intro q hq
    simp only [applyOp] at hq
    cases hf : s.1.orders.find? (fun o => o.id == oid) with
    | none =>
      simp only [admin_update_order_status, hf, Option.map_none', Option.getD_none] at hq
      exact hnn q hq
    | some o =>
      simp only [admin_update_order_status, hf, Option.map_some', Option.getD_some] at hq
      exact hnn q hq

/-- C2 amended: stock non-negativity is an invariant of every operation the
program offers except the admin product forms, which accept any integer;
whenever the initial store has only non-negative stocks and every
admin-add/admin-edit in the run submits a non-negative stock value, every
product existing at every reachable state has non-negative stock. -/
theorem runOps_stock_nonneg (db : DB) (cart : Cart) (ops : List Op)
    (h0 : ∀ p ∈ db.products, 0 ≤ p.stock)
    (hops : ∀ op ∈ ops, opStockOK op = true) :
    ∀ p ∈ (runOps (db, cart) ops).1.products, 0 ≤ p.stock := by
  suffices hgen : ∀ (l : List Op) (s : DB × Cart), (∀ p ∈ s.1.products, 0 ≤ p.stock) →
      (∀ op ∈ l, opStockOK op = true) →
      ∀ p ∈ (runOps s l).1.products, 0 ≤ p.stock by
    exact hgen ops (db, cart) h0 hops
  intro l
  induction l with
  | nil => intro s h _; exact h
  | cons op rest ih =>
    intro s h hops2
    exact ih (applyOp s op)
      (applyOp_stock_nonneg s op h (hops2 op (List.mem_cons_self _ _)))
      (fun o ho => hops2 o (List.mem_cons_of_mem _ ho))

/-- Witness for the amended C2: a run that adds a product (stock 3), puts it
in the cart and checks out leaves it at stock 2, non-negative as the
invariant theorem predicts for the product existing after the run. -/
theorem runOps_stock_nonneg_witness :
    (runOps (⟨[], [], [], 1, 1, 1⟩, ([] : Cart))
        [.adminAdd "n" "d" 5 3 "i", .addToCart 1, .checkoutOp 7 "a" "p"]).1.products =
      [⟨1, "n", "d", 5, 2, "i"⟩] ∧
    0 ≤ (Product.mk 1 "n" "d" 5 2 "i").stock :=
  ⟨rfl,
   runOps_stock_nonneg ⟨[], [], [], 1, 1, 1⟩ []
     [.adminAdd "n" "d" 5 3 "i", .addToCart 1, .checkoutOp 7 "a" "p"]
     (by simp) (by decide) ⟨1, "n", "d", 5, 2, "i"⟩ (by decide)⟩
